import Mathlib

/-!
Shallow embedding of `src/app.py` of the universal-video-downloader
repository, covering the filename sanitizer `_safe_filename`, the format
selector `_pick_format`, and the bounded streaming relay inside the
`download` request handler (the part of the handler starting at the
duration check; URL validation, cookie handling and the call into the
external resolver are excluded collaborators per the specification).

Modelling conventions:
- Python strings are `List Char`; Python byte strings are `List Nat`.
- `dict.get` fields of a format candidate are `Option` fields; Python
  `x or 0` becomes `Option.getD 0`, and Python truthiness of a value is
  modelled explicitly where the code relies on it.
- `sorted(xs, key=score)` is a stable ascending sort by `score`.  Any two
  stable sorts with respect to the same total preorder produce the same
  list, so it is embedded as `List.insertionSort` (which the kernel can
  evaluate), ordered by the lexicographic key `(height or 0, tbr or 0)`.
- The network, the temporary file and the exception flow of the relay are
  modelled by explicit data: the list of body chunks the fetch would
  yield, and a trace recording the outcome, whether the fetch happened,
  whether the temp file was created, how many times it was successfully
  unlinked, whether it still exists at the end of the request, and the
  file size after each chunk write.
-/

namespace UVD

abbrev Str := List Char

/-- Sentinel string used by the resolver for an absent audio/video track
(`f.get("vcodec") != "none"` in `_pick_format`). -/
def noneStr : Str := "none".data

/-! ### `_safe_filename` (src/app.py lines 63-68) -/

/-- Whitespace characters removed by Python `str.strip()` (ASCII subset;
the sanitizer's other character classes are ASCII-only as well). -/
def pySpaceChar (c : Char) : Bool :=
  c == ' ' || c == '\t' || c == '\n' || c == '\r' || c == '\x0b' || c == '\x0c'

/-- Embedding of Python `str.strip()`: drop leading and trailing
whitespace. -/
def pyStrip (s : Str) : Str :=
  ((s.dropWhile pySpaceChar).reverse.dropWhile pySpaceChar).reverse

/-- Characters the regex `[^A-Za-z0-9._-]+` of `_safe_filename` leaves
alone. -/
def allowedChar (c : Char) : Bool :=
  c.isAlphanum || c == '.' || c == '_' || c == '-'

/-- Embedding of `re.sub(r"[^A-Za-z0-9._-]+", "_", name)`: each maximal
nonempty run of disallowed characters is replaced by a single underscore.
The flag records whether we are currently inside such a run (in which case
the underscore for it has already been emitted). -/
def pySubAux : Bool → Str → Str
  | _, [] => []
  | inRun, c :: cs =>
    if allowedChar c then c :: pySubAux false cs
    else if inRun then pySubAux true cs
    else '_' :: pySubAux true cs

/-- Embedding of the regex substitution in `_safe_filename`. -/
def pySub (s : Str) : Str := pySubAux false s

/-- Recognized video extensions of `_safe_filename`
(`\.(mp4|mov|webm|mkv)$` with `re.I`). -/
def videoExts : List Str := [".mp4".data, ".mov".data, ".webm".data, ".mkv".data]

/-- Embedding of `re.search(r"\.(mp4|mov|webm|mkv)$", name, re.I)`:
the lower-cased name ends with one of the four dotted extensions. -/
def hasVideoExt (s : Str) : Bool :=
  videoExts.any fun e => e.isSuffixOf (s.map Char.toLower)

/-- Embedding of `_safe_filename(name, default="video")` (the default is
never overridden at the call site).  `name or default` makes a missing or
empty title fall back to `"video"`; the result is stripped, run-substituted,
and given a `.mp4` suffix when it lacks a recognized video extension. -/
def safe_filename (name : Option Str) : Str :=
  let base : Str :=
    match name with
    | some s => if s = [] then "video".data else s
    | none => "video".data
  let subbed := pySub (pyStrip base)
  if hasVideoExt subbed then subbed else subbed ++ ".mp4".data

/-- Run substitution written the way the amended claim C8 states it: a
disallowed character together with the rest of its maximal run is replaced
by a single underscore.  Used to compare against the embedding `pySub`. -/
def runSub : Str → Str
  | [] => []
  | c :: cs =>
    if allowedChar c then c :: runSub cs
    else '_' :: runSub (cs.dropWhile fun d => !allowedChar d)
termination_by s => s.length
decreasing_by
  all_goals simp_wf
  have h := (List.dropWhile_sublist (fun d => !allowedChar d) (l := cs)).length_le
  omega

/-- Sanitizer as the amended claim C8 describes it: default and strip as
in the source, maximal disallowed runs collapsed to one underscore, and a
`.mp4` suffix added when no recognized extension ends the name. -/
def amendedSafeFilenameC8 (name : Option Str) : Str :=
  let base : Str :=
    match name with
    | some s => if s = [] then "video".data else s
    | none => "video".data
  let t := runSub (pyStrip base)
  if hasVideoExt t then t else t ++ ".mp4".data

/-- Sanitizer as claim C8 literally states it: EVERY character outside
`A-Za-z0-9._-` is replaced by an underscore (one underscore per
character), then `.mp4` is appended when no recognized extension ends the
name. -/
def perCharSafeFilenameC8 (s : Str) : Str :=
  let t := s.map fun c => if allowedChar c then c else '_'
  if hasVideoExt t then t else t ++ ".mp4".data

/-! ### `_pick_format` (src/app.py lines 70-90) -/

/-- Format candidate as consumed by `_pick_format` and the handler: the
fields the code reads, each optional because the code uses `dict.get`. -/
structure Fmt where
  vcodec : Option Str
  acodec : Option Str
  ext : Option Str
  height : Option Nat
  tbr : Option Nat
  url : Option Str
  filesize : Option Nat
  filesize_approx : Option Nat
deriving DecidableEq

/-- Python `f.get("height") or 0`. -/
def heightOr0 (f : Fmt) : Nat := f.height.getD 0

/-- Python `f.get("tbr") or 0`. -/
def tbrOr0 (f : Fmt) : Nat := f.tbr.getD 0

/-- Playability filter of `_pick_format`:
`f.get("vcodec") != "none" and f.get("acodec") != "none"`. -/
def isPlayable (f : Fmt) : Bool :=
  decide (f.vcodec ≠ some noneStr) && decide (f.acodec ≠ some noneStr)

/-- The mp4 filter of `_pick_format`: `f.get("ext") == "mp4"`. -/
def isMp4 (f : Fmt) : Bool := decide (f.ext = some "mp4".data)

/-- Ascending comparison by the sort key
`score(f) = (f.get("height") or 0, f.get("tbr") or 0)` (lexicographic). -/
def fmtLe (f g : Fmt) : Prop :=
  heightOr0 f < heightOr0 g ∨ (heightOr0 f = heightOr0 g ∧ tbrOr0 f ≤ tbrOr0 g)

instance : DecidableRel fmtLe := fun f g => by
  unfold fmtLe
  exact inferInstance

instance : IsTotal Fmt fmtLe := by
  constructor
  intro a b
  unfold fmtLe
  omega

instance : IsTrans Fmt fmtLe := by
  constructor
  intro a b c hab hbc
  unfold fmtLe at hab hbc ⊢
  omega

/-- Embedding of `sorted(xs, key=score)`: stable ascending sort by the
`(height, tbr)` key. -/
def sortFmts (l : List Fmt) : List Fmt := List.insertionSort fmtLe l

/-- Python `pref.isdigit()` (ASCII digits). -/
def pyIsDigit (s : Str) : Bool := decide (s ≠ []) && s.all Char.isDigit

/-- Python `int(pref)` on a digit string. -/
def strToNat (s : Str) : Nat := s.foldl (fun n c => n * 10 + (c.toNat - '0'.toNat)) 0

/-- The value `target_h = int(pref) if pref.isdigit() else None`. -/
def pyTarget (pref : Str) : Option Nat :=
  if pyIsDigit pref then some (strToNat pref) else none

/-- Embedding of `_pick_format`.  Both branches of `if mp4s:` run the same
selection logic; the mp4 branch indexes `sorted_mp4s[0]` unconditionally
(safe there because `mp4s` is nonempty, rendered by `head?`), while the
general branch guards the fallbacks with `if sorted_all else None`
(`head?`/`getLast?` return `none` exactly on the empty list, matching the
guards).  Python `if target_h:` is falsy both for `None` and for `0`. -/
def pick_format (formats : List Fmt) (pref : Str) : Option Fmt :=
  let playable := formats.filter isPlayable
  let mp4s := playable.filter isMp4
  let target_h : Option Nat := if pyIsDigit pref then some (strToNat pref) else none
  if mp4s ≠ [] then
    let sorted_mp4s := sortFmts mp4s
    match target_h with
    | some h =>
      if h ≠ 0 then
        match (sorted_mp4s.filter fun f => decide (heightOr0 f ≤ h)).getLast? with
        | some c => some c
        | none => sorted_mp4s.head?
      else sorted_mp4s.getLast?
    | none => sorted_mp4s.getLast?
  else
    let sorted_all := sortFmts playable
    match target_h with
    | some h =>
      if h ≠ 0 then
        match (sorted_all.filter fun f => decide (heightOr0 f ≤ h)).getLast? with
        | some c => some c
        | none => sorted_all.head?
      else sorted_all.getLast?
    | none => sorted_all.getLast?

/-- The subset `_pick_format` actually selects from: the playable mp4
candidates when there are any, otherwise all playable candidates. -/
def pickPool (formats : List Fmt) : List Fmt :=
  let playable := formats.filter isPlayable
  let mp4s := playable.filter isMp4
  if mp4s ≠ [] then mp4s else playable

/-- The common selection core both branches of `_pick_format` perform on
their pool: with a positive numeric target, the largest-key entry of
height at most the target, else the smallest-key entry; with no (or zero)
target, the largest-key entry. -/
def pickOne (pool : List Fmt) (target : Option Nat) : Option Fmt :=
  match target with
  | some h =>
    if h ≠ 0 then
      match ((sortFmts pool).filter fun f => decide (heightOr0 f ≤ h)).getLast? with
      | some c => some c
      | none => (sortFmts pool).head?
    else (sortFmts pool).getLast?
  | none => (sortFmts pool).getLast?

/-! ### Bounded stream relay inside `download` (src/app.py lines 137-186) -/

/-- Configuration constant `MAX_BYTES = 300 * 1024 * 1024`. -/
def MAX_BYTES : Nat := 300 * 1024 * 1024

/-- Configuration constant `MAX_DURATION_SEC = 10 * 60`. -/
def MAX_DURATION_SEC : Nat := 10 * 60

/-- Configuration constant `CHUNK = 1024 * 1024`. -/
def CHUNK : Nat := 1024 * 1024

/-- Which `abort(code, msg)` call produced an HTTP error response; the
constructor identifies the message of the call site.  `exceededLimit` is
the `abort(413, "Exceeded file size limit.")` inside the relay loop. -/
inductive AbortKind where
  | tooLong
  | noFormat
  | tooLargeEst
  | fetchFail
  | exceededLimit
  | downloadErr
deriving DecidableEq

/-- What the client ends up receiving: an HTTP error produced by a
surfaced `abort(...)`, a generic 500 from an exception that escaped the
handler unhandled, or the file attachment. -/
inductive Outcome where
  | abortRes (code : Nat) (kind : AbortKind)
  | internalError
  | served (filename : Str) (body : List Nat)
deriving DecidableEq

/-- True exactly on the success outcome. -/
def Outcome.isServed : Outcome → Bool
  | .served _ _ => true
  | _ => false

/-- Observable trace of one request: the outcome, whether the media URL
was fetched, whether the media temp file was ever created, how many times
it was successfully unlinked, whether it still exists when the request
ends, and the temp file's size after each chunk write. -/
structure Trace where
  outcome : Outcome
  fetched : Bool
  tempCreated : Bool
  unlinks : Nat
  tempExists : Bool
  sizes : List Nat
deriving DecidableEq

/-- Result of `requests.get(chosen["url"], stream=True)` followed by
`raise_for_status()`: either a 2xx response whose body iterates as the
given chunks, or a non-2xx status / connection failure. -/
inductive FetchResult where
  | ok (chunks : List (List Nat))
  | fail
deriving DecidableEq

/-- How the `for chunk in r.iter_content(...)` loop ends: the body is
consumed completely, or the ceiling check fires (having closed and
unlinked the temp file and called `abort(413, ...)`). -/
inductive LoopExit where
  | completed (file : List Nat) (sizes : List Nat)
  | breached (file : List Nat) (sizes : List Nat)
deriving DecidableEq

/-- File contents at loop exit. -/
def LoopExit.file : LoopExit → List Nat
  | .completed f _ => f
  | .breached f _ => f

/-- Recorded file sizes at loop exit. -/
def LoopExit.sizes : LoopExit → List Nat
  | .completed _ s => s
  | .breached _ s => s

/-- True exactly when the ceiling check fired. -/
def LoopExit.isBreached : LoopExit → Bool
  | .completed _ _ => false
  | .breached _ _ => true

/-- Embedding of the relay loop (src/app.py lines 163-171): empty chunks
are skipped; `written` is incremented by the chunk length BEFORE the
ceiling check, and the chunk is written to the temp file only after the
check passes.  `sizes` accumulates the file size after each write. -/
def relayLoop (maxB : Nat) : List (List Nat) → Nat → List Nat → List Nat → LoopExit
  | [], _, file, sizes => .completed file sizes
  | chunk :: rest, written, file, sizes =>
    if chunk = [] then relayLoop maxB rest written file sizes
    else if written + chunk.length > maxB then .breached file sizes
    else relayLoop maxB rest (written + chunk.length) (file ++ chunk)
        (sizes ++ [file.length + chunk.length])

/-- The resolver metadata the handler reads after playlist unwrapping:
`info.get("duration")`, `info.get("formats")`, `info.get("title")`. -/
structure Info where
  duration : Option Nat
  formats : List Fmt
  title : Option Str
deriving DecidableEq

/-- Python truthiness of `chosen.get("url")`: false for a missing key and
for the empty string. -/
def truthyStr (o : Option Str) : Bool :=
  match o with
  | some s => decide (s ≠ [])
  | none => false

/-- Python `chosen.get("filesize") or chosen.get("filesize_approx")`
followed by the truthiness test `if est_size and ...`: the resulting
numeric value, with `0` standing for "falsy" (absent or zero). -/
def estSize (chosen : Fmt) : Nat :=
  if chosen.filesize.getD 0 ≠ 0 then chosen.filesize.getD 0
  else chosen.filesize_approx.getD 0

/-- Embedding of the `download` handler from the duration check onward
(src/app.py lines 137-186), parameterized by the configured limits, the
resolver metadata, the quality preference, and what the media fetch would
return.

The breach branch follows the actual exception flow of the source: inside
the `try` block the ceiling check closes the file, unlinks it (one
successful unlink) and calls `abort(413, ...)`, which raises an
`HTTPException`; that exception is a subclass of `Exception`, so the
blanket `except Exception:` catches it, and the handler's own
`os.unlink(tmp_path)` then raises `FileNotFoundError` because the file is
already gone, so `abort(500, ...)` is never reached and the request fails
with a generic internal server error. -/
def download (maxDur maxB : Nat) (info : Info) (quality : Str)
    (fetch : FetchResult) : Trace :=
  -- duration = info.get("duration") or 0; `if duration and duration > MAX`
  if info.duration.getD 0 ≠ 0 ∧ info.duration.getD 0 > maxDur then
    ⟨.abortRes 413 .tooLong, false, false, 0, false, []⟩
  else
    match pick_format info.formats quality with
    | none => ⟨.abortRes 415 .noFormat, false, false, 0, false, []⟩
    | some chosen =>
      if truthyStr chosen.url = false then
        ⟨.abortRes 415 .noFormat, false, false, 0, false, []⟩
      else if estSize chosen ≠ 0 ∧ estSize chosen > maxB then
        ⟨.abortRes 413 .tooLargeEst, false, false, 0, false, []⟩
      else
        match fetch with
        | .fail => ⟨.abortRes 504 .fetchFail, true, false, 0, false, []⟩
        | .ok chunks =>
          match relayLoop maxB chunks 0 [] [] with
          | .completed file sizes =>
            ⟨.served (safe_filename info.title) file, true, true, 1, false, sizes⟩
          | .breached _ sizes =>
            ⟨.internalError, true, true, 1, false, sizes⟩

/-! ### Concrete data used by counterexamples and witnesses -/

/-- Playable mp4 candidate at 720p. -/
def cexMp4 : Fmt :=
  ⟨some "avc1".data, some "mp4a".data, some "mp4".data, some 720, some 100,
    some "u1".data, none, none⟩

/-- Playable webm candidate at 360p. -/
def cexWebm : Fmt :=
  ⟨some "vp9".data, some "opus".data, some "webm".data, some 360, some 50,
    some "u2".data, none, none⟩

/-- Candidate list with one playable mp4 above 480p and one playable webm
below it. -/
def cexFormats : List Fmt := [cexMp4, cexWebm]

/-- Candidate whose audio track is the `"none"` sentinel. -/
def cexNoAudio : Fmt :=
  ⟨some "avc1".data, some noneStr, some "mp4".data, some 720, some 100,
    some "u3".data, none, none⟩

/-- Candidate list with no playable entry. -/
def cexUnplayable : List Fmt := [cexNoAudio]

/-- Resolver metadata with no duration and the two playable candidates. -/
def cexInfo : Info := ⟨none, cexFormats, some "clip".data⟩

/-- Resolver metadata reporting a 700-second duration. -/
def cexLongInfo : Info := ⟨some 700, cexFormats, some "clip".data⟩

/-- Two 6-byte chunks: their total 12 exceeds a 10-byte ceiling only at
the second chunk. -/
def cexChunks : List (List Nat) := [List.replicate 6 0, List.replicate 6 0]

/-! ### Theorems about `_safe_filename` -/

theorem dropWhile_eq_self_of_not (p : Char → Bool) (l : Str)
    (h : ∀ c ∈ l, p c = false) : l.dropWhile p = l := by
  cases l with
  | nil => rfl
  | cons a as =>
    exact List.dropWhile_cons_of_neg (by simp [h a (List.mem_cons_self a as)])

theorem pyStrip_eq_self {l : Str} (h : ∀ c ∈ l, pySpaceChar c = false) :
    pyStrip l = l := by
  unfold pyStrip
  rw [dropWhile_eq_self_of_not _ _ h]
  rw [dropWhile_eq_self_of_not _ _ (fun c hc => h c (List.mem_reverse.mp hc))]
  exact List.reverse_reverse l

theorem pySpaceChar_eq_false_of_allowed {c : Char} (h : allowedChar c = true) :
    pySpaceChar c = false := by
  cases hsp : pySpaceChar c with
  | false => rfl
  | true =>
    exfalso
    have hd : c = ' ' ∨ c = '\t' ∨ c = '\n' ∨ c = '\r' ∨ c = '\x0b' ∨ c = '\x0c' := by
      simpa [pySpaceChar, Bool.or_eq_true, beq_iff_eq, or_assoc] using hsp
    rcases hd with h1 | h1 | h1 | h1 | h1 | h1 <;> subst h1 <;>
      exact absurd h (by decide)

theorem allowedChar_of_mem_pySubAux :
    ∀ (s : Str) (b : Bool) (c : Char), c ∈ pySubAux b s → allowedChar c = true := by
  intro s
  induction s with
  | nil => intro b c hc; simp [pySubAux] at hc
  | cons a as ih =>
    intro b c hc
    by_cases ha : allowedChar a = true
    · simp only [pySubAux, ha, if_true] at hc
      rcases List.mem_cons.mp hc with h1 | h1
      · subst h1; exact ha
      · exact ih false c h1
    · simp only [pySubAux, ha, if_false, Bool.false_eq_true] at hc
      cases b with
      | true => exact ih true c (by simpa using hc)
      | false =>
        rcases List.mem_cons.mp (by simpa using hc) with h1 | h1
        · subst h1; decide
        · exact ih true c h1

theorem pySubAux_eq_self :
    ∀ (s : Str) (b : Bool), (∀ c ∈ s, allowedChar c = true) → pySubAux b s = s := by
  intro s
  induction s with
  | nil => intro b _; rfl
  | cons a as ih =>
    intro b h
    have ha := h a (List.mem_cons_self a as)
    simp only [pySubAux, ha, if_true, List.cons.injEq, true_and]
    exact ih false (fun c hc => h c (List.mem_cons_of_mem a hc))

theorem pySubAux_true_eq (s : Str) :
    pySubAux true s = pySubAux false (s.dropWhile fun d => !allowedChar d) := by
  induction s with
  | nil => rfl
  | cons a as ih =>
    by_cases ha : allowedChar a = true
    · rw [List.dropWhile_cons_of_neg (by simp [ha])]
      simp only [pySubAux, ha, if_true]
    · have ha2 : allowedChar a = false := by
        revert ha; cases allowedChar a <;> simp
      rw [List.dropWhile_cons_of_pos (by simp [ha2])]
      simp only [pySubAux, ha2, Bool.false_eq_true, if_false]
      exact ih

theorem pySub_eq_runSub_aux :
    ∀ (n : Nat) (s : Str), s.length ≤ n → pySub s = runSub s := by
  intro n
  induction n with
  | zero =>
    intro s hs
    have : s = [] := List.length_eq_zero.mp (Nat.le_zero.mp hs)
    subst this
    rw [runSub]
    rfl
  | succ n ih =>
    intro s hs
    cases s with
    | nil =>
      rw [runSub]
      rfl
    | cons a as =>
      by_cases ha : allowedChar a = true
      · show pySubAux false (a :: as) = runSub (a :: as)
        rw [runSub]
        simp only [pySubAux, ha, if_true]
        exact congrArg _ (ih as (by simpa using Nat.le_of_succ_le_succ hs))
      · have ha2 : allowedChar a = false := by
          revert ha; cases allowedChar a <;> simp
        show pySubAux false (a :: as) = runSub (a :: as)
        rw [runSub]
        simp only [pySubAux, ha2, Bool.false_eq_true, if_false]
        rw [pySubAux_true_eq]
        refine congrArg _ (ih _ ?_)
        have h1 := (List.dropWhile_sublist (fun d => !allowedChar d) (l := as)).length_le
        simp only [List.length_cons] at hs
        omega

theorem pySub_eq_runSub (s : Str) : pySub s = runSub s :=
  pySub_eq_runSub_aux s.length s (Nat.le_refl _)

/-- C8 counterexample: on the title `"a!!b"` the code collapses the run
`"!!"` to a single underscore, producing `"a_b.mp4"`, while the claim's
per-character replacement would produce `"a__b.mp4"`; the two differ. -/
theorem safe_filename_per_char_cex :
    safe_filename (some "a!!b".data) = "a_b.mp4".data ∧
    perCharSafeFilenameC8 "a!!b".data = "a__b.mp4".data ∧
    safe_filename (some "a!!b".data) ≠ perCharSafeFilenameC8 "a!!b".data := by
  decide

/-- C8 (amended): for every title, the suggested filename is produced by
defaulting a missing or empty title to "video", stripping leading and
trailing whitespace, replacing every maximal run of characters outside
`A-Za-z0-9._-` with a single underscore, and appending ".mp4" when the
result does not already end (case-insensitively) in a recognized video
extension (mp4, mov, webm, mkv). -/
theorem safe_filename_amended (name : Option Str) :
    safe_filename name = amendedSafeFilenameC8 name := by
  simp only [safe_filename, amendedSafeFilenameC8, pySub_eq_runSub]

theorem safe_filename_all_allowed (name : Option Str) :
    ∀ c ∈ safe_filename name, allowedChar c = true := by
  intro c hc
  simp only [safe_filename, pySub] at hc
  split at hc
  · exact allowedChar_of_mem_pySubAux _ _ _ hc
  · rcases List.mem_append.mp hc with h1 | h1
    · exact allowedChar_of_mem_pySubAux _ _ _ h1
    · simp only [List.mem_cons, List.not_mem_nil, or_false] at h1
      rcases h1 with h1 | h1 | h1 | h1 <;> subst h1 <;> decide

theorem hasVideoExt_append (s : Str) : hasVideoExt (s ++ ".mp4".data) = true := by
  unfold hasVideoExt
  rw [List.any_eq_true]
  refine ⟨".mp4".data, by decide, ?_⟩
  rw [List.isSuffixOf_iff_suffix, List.map_append]
  have h4 : (".mp4".data).map Char.toLower = ".mp4".data := by decide
  rw [h4]
  exact List.suffix_append _ _

theorem safe_filename_ext (name : Option Str) :
    hasVideoExt (safe_filename name) = true := by
  simp only [safe_filename]
  split
  · assumption
  · exact hasVideoExt_append _

theorem safe_filename_ne_nil (name : Option Str) : safe_filename name ≠ [] := by
  intro h
  have h2 := safe_filename_ext name
  rw [h] at h2
  exact absurd h2 (by decide)

/-- C9: filename sanitization is idempotent: applying `_safe_filename`
twice yields the same result as applying it once. -/
theorem safe_filename_idem (s : Str) :
    safe_filename (some (safe_filename (some s))) = safe_filename (some s) := by
  have hall := safe_filename_all_allowed (some s)
  have hne := safe_filename_ne_nil (some s)
  have hext := safe_filename_ext (some s)
  set r := safe_filename (some s) with hr
  show safe_filename (some r) = r
  simp only [safe_filename]
  have hbase : (if r = [] then "video".data else r) = r := if_neg hne
  rw [hbase]
  rw [pyStrip_eq_self (fun c hc => pySpaceChar_eq_false_of_allowed (hall c hc))]
  have hsub : pySub r = r := pySubAux_eq_self r false hall
  rw [hsub, if_pos hext]

/-! ### Theorems about `_pick_format` -/

theorem fmtLe_refl (f : Fmt) : fmtLe f f := Or.inr ⟨rfl, Nat.le_refl _⟩

theorem fmtLe_height {f g : Fmt} (h : fmtLe f g) : heightOr0 f ≤ heightOr0 g := by
  unfold fmtLe at h
  omega

theorem mem_sortFmts {x : Fmt} {l : List Fmt} : x ∈ sortFmts l ↔ x ∈ l :=
  (List.perm_insertionSort fmtLe l).mem_iff

theorem sorted_sortFmts (l : List Fmt) : List.Pairwise fmtLe (sortFmts l) :=
  List.sorted_insertionSort fmtLe l

theorem sortFmts_ne_nil {l : List Fmt} (h : l ≠ []) : sortFmts l ≠ [] := by
  intro hs
  have hp : (sortFmts l).Perm l := List.perm_insertionSort fmtLe l
  rw [hs] at hp
  exact h hp.symm.eq_nil

theorem pairwise_getLast?_max :
    ∀ {l : List Fmt}, List.Pairwise fmtLe l → ∀ {c : Fmt}, l.getLast? = some c →
      ∀ x ∈ l, fmtLe x c := by
  intro l
  induction l with
  | nil => intro _ c hc; simp at hc
  | cons a as ih =>
    intro hp c hc x hx
    cases as with
    | nil =>
      obtain rfl : a = c := by simpa using hc
      have hxa : x = a := by simpa using hx
      subst hxa
      exact fmtLe_refl x
    | cons b bs =>
      rw [List.getLast?_cons_cons] at hc
      have hcmem : c ∈ b :: bs := List.mem_of_mem_getLast? (by rw [hc]; rfl)
      rcases List.mem_cons.mp hx with h1 | h1
      · subst h1
        exact (List.pairwise_cons.mp hp).1 c hcmem
      · exact ih (List.pairwise_cons.mp hp).2 hc x h1

theorem pairwise_head?_min :
    ∀ {l : List Fmt}, List.Pairwise fmtLe l → ∀ {c : Fmt}, l.head? = some c →
      ∀ x ∈ l, fmtLe c x := by
  intro l
  induction l with
  | nil => intro _ c hc; simp at hc
  | cons a as _ =>
    intro hp c hc x hx
    obtain rfl : a = c := by simpa using hc
    rcases List.mem_cons.mp hx with h1 | h1
    · subst h1; exact fmtLe_refl x
    · exact (List.pairwise_cons.mp hp).1 x h1

theorem pick_format_eq_pickOne (formats : List Fmt) (pref : Str) :
    pick_format formats pref = pickOne (pickPool formats) (pyTarget pref) := by
  unfold pick_format pickPool pickOne pyTarget
  by_cases hm : (formats.filter isPlayable).filter isMp4 ≠ []
  · simp only [if_pos hm]
  · simp only [if_neg hm]

theorem pickOne_none_eq (pool : List Fmt) :
    pickOne pool none = (sortFmts pool).getLast? := rfl

theorem pickOne_some_eq (pool : List Fmt) (h : Nat) (hh : h ≠ 0) :
    pickOne pool (some h) =
      match ((sortFmts pool).filter fun f => decide (heightOr0 f ≤ h)).getLast? with
      | some c => some c
      | none => (sortFmts pool).head? := by
  show (if h ≠ 0 then
      match ((sortFmts pool).filter fun f => decide (heightOr0 f ≤ h)).getLast? with
      | some c => some c
      | none => (sortFmts pool).head?
    else (sortFmts pool).getLast?) = _
  rw [if_pos hh]

theorem pickOne_zero_eq (pool : List Fmt) :
    pickOne pool (some 0) = (sortFmts pool).getLast? := rfl

theorem pickOne_nil (t : Option Nat) : pickOne [] t = none := by
  rcases t with _ | h
  · rfl
  · by_cases hz : h ≠ 0
    · rw [pickOne_some_eq [] h hz]
      rfl
    · have h0 : h = 0 := by omega
      subst h0
      rfl

theorem pickOne_mem {pool : List Fmt} {t : Option Nat} {c : Fmt}
    (h : pickOne pool t = some c) : c ∈ pool := by
  rcases t with _ | hh
  · rw [pickOne_none_eq] at h
    exact mem_sortFmts.mp (List.mem_of_mem_getLast? (by rw [h]; rfl))
  · by_cases hz : hh ≠ 0
    · rw [pickOne_some_eq pool hh hz] at h
      rcases hunder : ((sortFmts pool).filter
          fun f => decide (heightOr0 f ≤ hh)).getLast? with _ | d
      · rw [hunder] at h
        have hh2 : (sortFmts pool).head? = some c := h
        exact mem_sortFmts.mp (List.mem_of_mem_head? (by rw [hh2]; rfl))
      · rw [hunder] at h
        have hd2 : (some d : Option Fmt) = some c := h
        have hdm : d ∈ (sortFmts pool).filter
            fun f => decide (heightOr0 f ≤ hh) :=
          List.mem_of_mem_getLast? (by rw [hunder]; rfl)
        have hpool : d ∈ pool := mem_sortFmts.mp (List.mem_filter.mp hdm).1
        obtain rfl : d = c := by simpa using hd2
        exact hpool
    · have h0 : hh = 0 := by omega
      subst h0
      rw [pickOne_zero_eq] at h
      exact mem_sortFmts.mp (List.mem_of_mem_getLast? (by rw [h]; rfl))

theorem pickOne_none_spec (pool : List Fmt) (hne : pool ≠ []) :
    ∃ c, pickOne pool none = some c ∧ c ∈ pool ∧ ∀ f ∈ pool, fmtLe f c := by
  have hs := sortFmts_ne_nil hne
  rcases hlast : (sortFmts pool).getLast? with _ | c
  · exact absurd (List.getLast?_eq_none_iff.mp hlast) hs
  · refine ⟨c, ?_, ?_, ?_⟩
    · rw [pickOne_none_eq]
      exact hlast
    · exact mem_sortFmts.mp (List.mem_of_mem_getLast? (by rw [hlast]; rfl))
    · intro f hf
      exact pairwise_getLast?_max (sorted_sortFmts pool) hlast f (mem_sortFmts.mpr hf)

theorem pickOne_target_spec (pool : List Fmt) (H : Nat) (hH : H ≠ 0)
    (hne : pool ≠ []) :
    ∃ c, pickOne pool (some H) = some c ∧ c ∈ pool ∧
      ((∃ f ∈ pool, heightOr0 f ≤ H) → heightOr0 c ≤ H) ∧
      ((∀ f ∈ pool, H < heightOr0 f) → ∀ f ∈ pool, heightOr0 c ≤ heightOr0 f) := by
  have hs := sortFmts_ne_nil hne
  rcases hunder : ((sortFmts pool).filter fun f => decide (heightOr0 f ≤ H)).getLast?
    with _ | c
  · -- no candidate in the pool is at or under the target height
    have hempty := List.getLast?_eq_none_iff.mp hunder
    have hover : ∀ f ∈ pool, H < heightOr0 f := by
      intro f hf
      have := List.filter_eq_nil_iff.mp hempty f (mem_sortFmts.mpr hf)
      simpa using this
    rcases hhead : (sortFmts pool).head? with _ | c
    · exact absurd (List.head?_eq_none_iff.mp hhead) hs
    · refine ⟨c, ?_, ?_, ?_, ?_⟩
      · rw [pickOne_some_eq pool H hH, hunder]
        exact hhead
      · exact mem_sortFmts.mp (List.mem_of_mem_head? (by rw [hhead]; rfl))
      · intro hex
        exfalso
        rcases hex with ⟨f, hf, hfh⟩
        exact absurd hfh (Nat.not_le_of_lt (hover f hf))
      · intro _ f hf
        exact fmtLe_height
          (pairwise_head?_min (sorted_sortFmts pool) hhead f (mem_sortFmts.mpr hf))
  · have hcmem : c ∈ (sortFmts pool).filter fun f => decide (heightOr0 f ≤ H) :=
      List.mem_of_mem_getLast? (by rw [hunder]; rfl)
    have hcfilter := List.mem_filter.mp hcmem
    have hcpool : c ∈ pool := mem_sortFmts.mp hcfilter.1
    have hcle : heightOr0 c ≤ H := by simpa using hcfilter.2
    refine ⟨c, ?_, hcpool, fun _ => hcle, ?_⟩
    · rw [pickOne_some_eq pool H hH, hunder]
    · intro hover
      exact absurd hcle (Nat.not_le_of_lt (hover c hcpool))

theorem pickPool_ne_nil {formats : List Fmt}
    (h : formats.filter isPlayable ≠ []) : pickPool formats ≠ [] := by
  unfold pickPool
  by_cases hm : (formats.filter isPlayable).filter isMp4 ≠ []
  · rw [if_pos hm]
    exact hm
  · rw [if_neg hm]
    exact h

theorem pickPool_playable {formats : List Fmt} {x : Fmt}
    (hx : x ∈ pickPool formats) : isPlayable x = true := by
  simp only [pickPool] at hx
  split at hx
  · exact (List.mem_filter.mp (List.mem_filter.mp hx).1).2
  · exact (List.mem_filter.mp hx).2

/-- C1 counterexample: with candidates `[mp4 at 720p, webm at 360p]` and
numeric preference 480, a playable candidate of height at most 480 exists
(the webm), yet `_pick_format` prefers the mp4 subset and returns the
720p mp4, whose height exceeds 480 — refuting the claim that the selected
height is at most H whenever any playable candidate is at most H. -/
theorem pick_format_height_cap_cex :
    (∃ f ∈ cexFormats.filter isPlayable, heightOr0 f ≤ 480) ∧
    pick_format cexFormats "480".data = some cexMp4 ∧
    ¬ heightOr0 cexMp4 ≤ 480 := by
  decide

/-- C1 (amended): for every candidate list and positive numeric preference
H, the selection is made within the preferred subset (the playable mp4
candidates when any exist, otherwise all playable candidates): the chosen
candidate belongs to that subset; if the subset has a candidate of height
at most H the chosen height is at most H, and otherwise the chosen
candidate has the minimum height of the subset. -/
theorem pick_format_height_cap (formats : List Fmt) (pref : Str) (H : Nat)
    (hd : pyIsDigit pref = true) (hv : strToNat pref = H) (hpos : 0 < H)
    (hne : formats.filter isPlayable ≠ []) :
    ∃ c, pick_format formats pref = some c ∧ c ∈ pickPool formats ∧
      ((∃ f ∈ pickPool formats, heightOr0 f ≤ H) → heightOr0 c ≤ H) ∧
      ((∀ f ∈ pickPool formats, H < heightOr0 f) →
        ∀ f ∈ pickPool formats, heightOr0 c ≤ heightOr0 f) := by
  have hbridge := pick_format_eq_pickOne formats pref
  have htarget : pyTarget pref = some H := by
    unfold pyTarget
    rw [if_pos hd, hv]
  rw [hbridge, htarget]
  exact pickOne_target_spec (pickPool formats) H (by omega) (pickPool_ne_nil hne)

theorem pick_format_height_cap_witness :
    pyIsDigit "480".data = true ∧ strToNat "480".data = 480 ∧ 0 < 480 ∧
    cexFormats.filter isPlayable ≠ [] ∧
    ∃ c, pick_format cexFormats "480".data = some c ∧ c ∈ pickPool cexFormats ∧
      ((∃ f ∈ pickPool cexFormats, heightOr0 f ≤ 480) → heightOr0 c ≤ 480) ∧
      ((∀ f ∈ pickPool cexFormats, 480 < heightOr0 f) →
        ∀ f ∈ pickPool cexFormats, heightOr0 c ≤ heightOr0 f) :=
  ⟨by decide, by decide, by decide, by decide,
    pick_format_height_cap cexFormats "480".data 480 (by decide) (by decide)
      (by decide) (by decide)⟩

/-- C4: for preference "best" and a nonempty playable candidate set, the
selector returns a candidate of the preferred subset (playable mp4
candidates if any, otherwise all playable candidates) whose
`(height or 0, tbr or 0)` key is maximal in that subset. -/
theorem pick_format_best_max (formats : List Fmt)
    (hne : formats.filter isPlayable ≠ []) :
    ∃ c, pick_format formats "best".data = some c ∧ c ∈ pickPool formats ∧
      ∀ f ∈ pickPool formats, fmtLe f c := by
  have hbridge := pick_format_eq_pickOne formats "best".data
  have htarget : pyTarget "best".data = none := by decide
  rw [hbridge, htarget]
  exact pickOne_none_spec (pickPool formats) (pickPool_ne_nil hne)

theorem pick_format_best_max_witness :
    cexFormats.filter isPlayable ≠ [] ∧
    ∃ c, pick_format cexFormats "best".data = some c ∧ c ∈ pickPool cexFormats ∧
      ∀ f ∈ pickPool cexFormats, fmtLe f c :=
  ⟨by decide, pick_format_best_max cexFormats (by decide)⟩

/-- C5: for every preference the selector returns `none` when the
candidate list is empty or, more generally, when no candidate has both an
audio and a video track (the playable filter is empty); and any candidate
it does return is playable, so candidates lacking either track are never
chosen. -/
theorem pick_format_none_and_playable (formats : List Fmt) (pref : Str) :
    (formats.filter isPlayable = [] → pick_format formats pref = none) ∧
    (∀ c, pick_format formats pref = some c → isPlayable c = true) := by
  constructor
  · intro hempty
    rw [pick_format_eq_pickOne]
    have hpool : pickPool formats = [] := by
      simp only [pickPool, hempty, List.filter_nil]
      rfl
    rw [hpool]
    exact pickOne_nil _
  · intro c hc
    rw [pick_format_eq_pickOne] at hc
    exact pickPool_playable (pickOne_mem hc)

theorem pick_format_none_and_playable_witness :
    cexUnplayable.filter isPlayable = [] ∧
    pick_format cexUnplayable "best".data = none :=
  ⟨by decide,
    (pick_format_none_and_playable cexUnplayable "best".data).1 (by decide)⟩

/-- C10 (implicit): a digit-string preference whose numeric value is zero
(such as "0" or "00") passes the numeric check, but Python truthiness
treats the zero target as no target, so the selector behaves exactly as
for preference "best". -/
theorem pick_format_zero_pref (pref : Str) (hd : pyIsDigit pref = true)
    (hz : strToNat pref = 0) (formats : List Fmt) :
    pick_format formats pref = pick_format formats "best".data := by
  rw [pick_format_eq_pickOne, pick_format_eq_pickOne]
  have ht1 : pyTarget pref = some 0 := by
    unfold pyTarget
    rw [if_pos hd, hz]
  have ht2 : pyTarget "best".data = none := by decide
  rw [ht1, ht2, pickOne_zero_eq, pickOne_none_eq]

theorem pick_format_zero_pref_witness :
    pyIsDigit "00".data = true ∧ strToNat "00".data = 0 ∧
    pick_format cexFormats "00".data = pick_format cexFormats "best".data :=
  ⟨by decide, by decide,
    pick_format_zero_pref "00".data (by decide) (by decide) cexFormats⟩

/-! ### Theorems about the bounded stream relay -/

theorem relayLoop_sizes_le (maxB : Nat) :
    ∀ (chunks : List (List Nat)) (written : Nat) (file sizes : List Nat),
      written ≤ maxB → file.length = written → (∀ s ∈ sizes, s ≤ maxB) →
      ∀ s ∈ (relayLoop maxB chunks written file sizes).sizes, s ≤ maxB := by
  intro chunks
  induction chunks with
  | nil =>
    intro written file sizes hw hf hs
    simpa [relayLoop, LoopExit.sizes] using hs
  | cons c rest ih =>
    intro written file sizes hw hf hs
    by_cases hc : c = []
    · rw [relayLoop, if_pos hc]
      exact ih written file sizes hw hf hs
    · by_cases hover : written + c.length > maxB
      · rw [relayLoop, if_neg hc, if_pos hover]
        simpa [LoopExit.sizes] using hs
      · rw [relayLoop, if_neg hc, if_neg hover]
        refine ih (written + c.length) (file ++ c) _ (by omega)
          (by simp [List.length_append, hf]) ?_
        intro s hsmem
        rcases List.mem_append.mp hsmem with h1 | h1
        · exact hs s h1
        · have : s = file.length + c.length := by simpa using h1
          omega

theorem relayLoop_breach (maxB : Nat) :
    ∀ (chunks : List (List Nat)) (written : Nat) (file sizes : List Nat),
      written ≤ maxB → maxB < written + (chunks.map List.length).sum →
      (relayLoop maxB chunks written file sizes).isBreached = true := by
  intro chunks
  induction chunks with
  | nil =>
    intro written file sizes hw hsum
    exfalso
    simp only [List.map_nil, List.sum_nil] at hsum
    omega
  | cons c rest ih =>
    intro written file sizes hw hsum
    simp only [List.map_cons, List.sum_cons] at hsum
    by_cases hc : c = []
    · rw [relayLoop, if_pos hc]
      refine ih written file sizes hw ?_
      subst hc
      simpa using hsum
    · by_cases hover : written + c.length > maxB
      · rw [relayLoop, if_neg hc, if_pos hover]
        rfl
      · rw [relayLoop, if_neg hc, if_neg hover]
        refine ih (written + c.length) (file ++ c) _ (by omega) (by omega)

/-- C3: for every input chunk stream, the relay never holds more than the
ceiling in the temporary file — every recorded file size is at most
`maxB` — and whenever the stream total would exceed the ceiling, no
success result is returned, the temporary file does not survive the
request, and if the temp file was created it was deleted exactly once. -/
theorem download_relay_bounded (maxDur maxB : Nat) (info : Info) (q : Str)
    (chunks : List (List Nat)) :
    (∀ s ∈ (download maxDur maxB info q (.ok chunks)).sizes, s ≤ maxB) ∧
    (maxB < (chunks.map List.length).sum →
      (download maxDur maxB info q (.ok chunks)).outcome.isServed = false ∧
      (download maxDur maxB info q (.ok chunks)).tempExists = false ∧
      ((download maxDur maxB info q (.ok chunks)).tempCreated = true →
        (download maxDur maxB info q (.ok chunks)).unlinks = 1)) := by
  unfold download
  split
  · exact ⟨by simp, fun _ => ⟨rfl, rfl, fun h => by simp at h⟩⟩
  · split
    · exact ⟨by simp, fun _ => ⟨rfl, rfl, fun h => by simp at h⟩⟩
    · split
      · exact ⟨by simp, fun _ => ⟨rfl, rfl, fun h => by simp at h⟩⟩
      · split
        · exact ⟨by simp, fun _ => ⟨rfl, rfl, fun h => by simp at h⟩⟩
        · rcases hloop : relayLoop maxB chunks 0 [] [] with ⟨file, sizes⟩ | ⟨file, sizes⟩ <;>
            simp only [hloop]
          · constructor
            · have h1 := relayLoop_sizes_le maxB chunks 0 [] []
                (Nat.zero_le _) rfl (by simp)
              rw [hloop] at h1
              simpa [LoopExit.sizes] using h1
            · intro hsum
              exfalso
              have hb := relayLoop_breach maxB chunks 0 [] []
                (Nat.zero_le _) (by simpa using hsum)
              rw [hloop] at hb
              simp [LoopExit.isBreached] at hb
          · constructor
            · have h1 := relayLoop_sizes_le maxB chunks 0 [] []
                (Nat.zero_le _) rfl (by simp)
              rw [hloop] at h1
              simpa [LoopExit.sizes] using h1
            · intro _
              simp [Outcome.isServed]

theorem download_relay_bounded_witness :
    (∀ s ∈ (download 600 10 cexInfo "best".data (.ok cexChunks)).sizes, s ≤ 10) ∧
    (10 : Nat) < (cexChunks.map List.length).sum ∧
    (download 600 10 cexInfo "best".data (.ok cexChunks)).outcome.isServed = false ∧
    (download 600 10 cexInfo "best".data (.ok cexChunks)).tempExists = false ∧
    ((download 600 10 cexInfo "best".data (.ok cexChunks)).tempCreated = true →
      (download 600 10 cexInfo "best".data (.ok cexChunks)).unlinks = 1) := by
  have h := download_relay_bounded 600 10 cexInfo "best".data cexChunks
  have h2 := h.2 (by decide)
  exact ⟨h.1, by decide, h2.1, h2.2.1, h2.2.2⟩

/-- C6: when the resolver reports a duration exceeding the configured
maximum, the handler rejects with the duration-exceeded 413 before any
fetch of media bytes: the fetch never happens and no temporary media file
is ever created. -/
theorem download_duration_rejected (maxDur maxB : Nat) (info : Info) (q : Str)
    (fetch : FetchResult) (d : Nat) (hdur : info.duration = some d)
    (hgt : maxDur < d) :
    (download maxDur maxB info q fetch).outcome = .abortRes 413 .tooLong ∧
    (download maxDur maxB info q fetch).fetched = false ∧
    (download maxDur maxB info q fetch).tempCreated = false := by
  unfold download
  rw [hdur]
  rw [if_pos (by constructor <;> simp <;> omega)]
  exact ⟨rfl, rfl, rfl⟩

theorem download_duration_rejected_witness :
    (download 600 MAX_BYTES cexLongInfo "best".data .fail).outcome =
      .abortRes 413 .tooLong ∧
    (download 600 MAX_BYTES cexLongInfo "best".data .fail).fetched = false ∧
    (download 600 MAX_BYTES cexLongInfo "best".data .fail).tempCreated = false :=
  download_duration_rejected 600 MAX_BYTES cexLongInfo "best".data .fail 700
    (by decide) (by decide)

/-- C7: whenever the handler reaches the media fetch and the fetch fails
(non-2xx status or connection error), the request fails with the 504
gateway abort and the temporary media file is never created: the temp
file is allocated only after the streaming response has been opened and
validated. -/
theorem download_fetch_fail (maxDur maxB : Nat) (info : Info) (q : Str)
    (hf : (download maxDur maxB info q .fail).fetched = true) :
    (download maxDur maxB info q .fail).outcome = .abortRes 504 .fetchFail ∧
    (download maxDur maxB info q .fail).tempCreated = false := by
  by_cases h1 : info.duration.getD 0 ≠ 0 ∧ info.duration.getD 0 > maxDur
  · exfalso
    have hfx : (download maxDur maxB info q .fail).fetched = false := by
      unfold download
      rw [if_pos h1]
    rw [hfx] at hf
    simp at hf
  · rcases hpf : pick_format info.formats q with _ | chosen
    · exfalso
      have hfx : (download maxDur maxB info q .fail).fetched = false := by
        unfold download
        rw [if_neg h1, hpf]
      rw [hfx] at hf
      simp at hf
    · by_cases h2 : truthyStr chosen.url = false
      · exfalso
        have hfx : (download maxDur maxB info q .fail).fetched = false := by
          unfold download
          rw [if_neg h1, hpf]
          show (if truthyStr chosen.url = false then _ else _ : Trace).fetched = false
          rw [if_pos h2]
        rw [hfx] at hf
        simp at hf
      · by_cases h3 : estSize chosen ≠ 0 ∧ estSize chosen > maxB
        · exfalso
          have hfx : (download maxDur maxB info q .fail).fetched = false := by
            unfold download
            rw [if_neg h1, hpf]
            show (if truthyStr chosen.url = false then _ else _ : Trace).fetched = false
            rw [if_neg h2]
            show (if estSize chosen ≠ 0 ∧ estSize chosen > maxB
                then _ else _ : Trace).fetched = false
            rw [if_pos h3]
          rw [hfx] at hf
          simp at hf
        · have hout : (download maxDur maxB info q .fail).outcome =
              .abortRes 504 .fetchFail := by
            unfold download
            rw [if_neg h1, hpf]
            show (if truthyStr chosen.url = false then _ else _ : Trace).outcome = _
            rw [if_neg h2]
            show (if estSize chosen ≠ 0 ∧ estSize chosen > maxB
                then _ else _ : Trace).outcome = _
            rw [if_neg h3]
          have htc : (download maxDur maxB info q .fail).tempCreated = false := by
            unfold download
            rw [if_neg h1, hpf]
            show (if truthyStr chosen.url = false then _ else _ : Trace).tempCreated = _
            rw [if_neg h2]
            show (if estSize chosen ≠ 0 ∧ estSize chosen > maxB
                then _ else _ : Trace).tempCreated = _
            rw [if_neg h3]
          exact ⟨hout, htc⟩

theorem download_fetch_fail_witness :
    (download 600 10 cexInfo "best".data .fail).fetched = true ∧
    (download 600 10 cexInfo "best".data .fail).outcome =
      .abortRes 504 .fetchFail ∧
    (download 600 10 cexInfo "best".data .fail).tempCreated = false :=
  ⟨by decide, download_fetch_fail 600 10 cexInfo "best".data (by decide)⟩

/-- C2 (code bug): when the running total exceeds the ceiling mid-stream,
the temp file IS deleted exactly once and no partial file is returned,
but the client does NOT receive the 413 Payload-Too-Large failure: the
`abort(413, ...)` raised inside the `try` block is caught by the blanket
`except Exception:` handler, whose own `os.unlink` of the already-deleted
file raises `FileNotFoundError`, so the request surfaces as a generic
internal server error.  Evaluated at ceiling 10 with two 6-byte chunks. -/
theorem download_ceiling_breach_slip :
    (download 600 10 cexInfo "best".data (.ok cexChunks)).outcome =
      .internalError ∧
    (download 600 10 cexInfo "best".data (.ok cexChunks)).outcome ≠
      .abortRes 413 .exceededLimit ∧
    (download 600 10 cexInfo "best".data (.ok cexChunks)).outcome.isServed =
      false ∧
    (download 600 10 cexInfo "best".data (.ok cexChunks)).unlinks = 1 ∧
    (download 600 10 cexInfo "best".data (.ok cexChunks)).tempExists = false := by
  decide

end UVD
